import Mathlib

/-
Verification of the pipeline control logic of start_mirt_pipeline.py.

The source is shallowly embedded: the filesystem is a function from a
directory path to an optional listing (none = the directory does not
exist), external collaborators (mirt_train_EM, generate_predictions,
visualize, adaptive_pretest, generate_responses, model_training_util)
are recorded as events carrying exactly the data the pipeline hands
them, and Python exceptions are explicit error values.
-/

namespace Pipeline

/-! ### Configuration record (argparse options of get_command_line_arguments) -/

structure Arguments where
  data_file : String
  abilities : List Nat
  num_students : Nat
  num_problems : Nat
  time : String
  workers : Nat
  num_epochs : Nat
  model_directory : String
  model : String
  generate : Bool
  train : Bool
  visualize : Bool
  test : Bool
deriving DecidableEq

/-! ### get_time_arguments -/

/-- Result of get_time_arguments: the returned list together with the
lines printed to stdout by the invalid-argument branch. -/
structure TimeArgumentsResult where
  time_arguments : List String
  warnings : List String
deriving DecidableEq

/-- Embedding of get_time_arguments: branches on arguments.time; the
empty string is the time-included variant and "-z" the time-excluded
variant; any unrecognized value prints a warning and falls back to the
time-included variant. -/
def get_time_arguments (arguments : Arguments) : TimeArgumentsResult :=
  if arguments.time = "with_and_without_time" then ⟨["", "-z"], []⟩
  else if arguments.time = "without_time" then ⟨["-z"], []⟩
  else if arguments.time = "with_time" then ⟨[""], []⟩
  else ⟨[""],
    ["Invalid argument selected for --time",
     "Choosing default behavior - with time"]⟩

/-! ### gen_param_str -/

/-- Embedding of gen_param_str: the format expression
"%s_%s_%s" % (abilities, time_str, datetime_str) with
time_str = 'time' if time else 'no_time'.  A Python string is truthy
iff it is non-empty, so the empty (time-included) marker selects
"no_time" and the non-empty "-z" (time-excluded) marker selects
"time". -/
def gen_param_str (abilities : Nat) (datetime_str : String) (time : String) : String :=
  let time_str := if time = "" then "no_time" else "time"
  Nat.repr abilities ++ "_" ++ time_str ++ "_" ++ datetime_str

/-! ### get_latest_parameter_file_name -/

/-- Embedding of the Python key function fname.split('_')[-1]: the
substring after the last underscore (the whole name when there is no
underscore), as a character list. -/
def suffixKey (fname : String) : List Char :=
  (fname.toList.reverse.takeWhile (fun c => c ≠ '_')).reverse

/-- The same key as a string, for readability of statements. -/
def lastSuffix (fname : String) : String :=
  (suffixKey fname).asString

/-- Python byte/codepoint-wise lexicographic strict order on strings,
as used by list.sort to compare keys. -/
def charListLt : List Char → List Char → Bool
  | [], [] => false
  | [], _ :: _ => true
  | _ :: _, [] => false
  | a :: as, b :: bs =>
    if a.toNat < b.toNat then true
    else if b.toNat < a.toNat then false
    else charListLt as bs

/-- The reflexive closure of charListLt (the order is total). -/
def charListLe (a b : List Char) : Bool := !charListLt b a

/-- Key comparison used by npz_files.sort(key=...). -/
def keyLe (f g : String) : Bool := charListLe (suffixKey f) (suffixKey g)

/-- Stable insertion into a list already sorted ascending by key: the
new element goes in front of the first element whose key is not below
its own.  Python list.sort is exactly a stable ascending sort, and a
stable ascending sort has a unique result, so this insertion sort is
extensionally the sort performed at line 138 of the source. -/
def insertByKey (f : String) : List String → List String
  | [] => [f]
  | g :: gs => if keyLe f g then f :: g :: gs else g :: insertByKey f gs

/-- Embedding of npz_files.sort(key=lambda fname: fname.split('_')[-1]). -/
def sortByKey : List String → List String
  | [] => []
  | f :: fs => insertByKey f (sortByKey fs)

/-- Failure modes of get_latest_parameter_file_name: os.listdir raises
OSError(ENOENT, "No such file or directory") when the directory does
not exist, and npz_files[-1] raises IndexError when the sorted listing
is empty.  Both conditions report that no parameter artifact is
present. -/
inductive LocErr where
  | enoent
  | indexError
deriving DecidableEq

/-- Embedding of get_latest_parameter_file_name over a filesystem fs
mapping a directory path to its listing (none when the directory does
not exist): sort the listing by the suffix key and return
path + npz_files[-1]. -/
def get_latest_parameter_file_name (fs : String → Option (List String))
    (path : String) : Except LocErr String :=
  match fs path with
  | none => .error .enoent
  | some npz_files =>
    match (sortByKey npz_files).getLast? with
    | none => .error .indexError
    | some last => .ok (path ++ last)

section SanityChecks

example : suffixKey "a_03" = ['0', '3'] := by decide

example : sortByKey ["model_03", "model_9", "model_10"]
    = ["model_03", "model_10", "model_9"] := by decide

example :
    get_latest_parameter_file_name
      (fun p => if p = "d/" then some ["model_03", "model_9", "model_10"] else none)
      "d/" = .ok "d/model_9" := by rfl

example : gen_param_str 1 "2015_01_01" "" = "1_no_time_2015_01_01" := by decide

example : gen_param_str 2 "2015" "-z" = "2_time_2015" := by decide

end SanityChecks

/-! ### Events: invocations of external collaborators and of the
directory provisioner, recorded with exactly the data the pipeline
passes them. -/

/-- Value returned by generate_predictions.load_and_simulate_assessment,
represented by its invocation record (parameter-file path, roc-file
path, test-file path); the collaborator is external to the core. -/
abbrev Curve := String × String × String

inductive Event where
  | generateResponses (arguments : Arguments)
  | mkdirPList (paths : List String)
  | mkdirPStr (path : String)
  | sepIntoTrainAndTest (arguments : Arguments)
  | mirtTrainEM (mirt_train_params : List String)
  | loadAndSimulate (params roc_file test_file : String)
  | showRoc (key : String) (curve : Curve)
  | showExercises (model : String)
  | adaptivePretest (model : String)
deriving DecidableEq

/-- Python exceptions that can escape run_with_arguments in the
embedded fragment. -/
inductive PyErr where
  | nameError (name : String)
  | osError
  | indexError
deriving DecidableEq

def LocErr.toPyErr : LocErr → PyErr
  | .enoent => .osError
  | .indexError => .indexError

/-! ### generate_model_with_parameters and generate_roc_curve_from_model -/

/-- The mirt_train_params list built by generate_model_with_parameters,
with the time marker appended at the end when the time string is
truthy (non-empty). -/
def mirt_train_params (arguments : Arguments) (abilities : Nat) (time : String)
    (datetime_str : String) : List String :=
  let param_str := gen_param_str abilities datetime_str time
  let out_dir_name := arguments.model_directory ++ param_str ++ "/"
  let base := ["-a", Nat.repr abilities,
    "-w", Nat.repr arguments.workers,
    "-n", Nat.repr arguments.num_epochs,
    "-f", arguments.model_directory ++ "train.responses",
    "-o", out_dir_name]
  if time = "" then base else base ++ [time]

/-- Embedding of generate_model_with_parameters: provisions the cell's
output directory (mkdir_p is called with a bare string here) and calls
mirt_train_EM.run_programmatically. -/
def generate_model_with_parameters (arguments : Arguments) (abilities : Nat)
    (time : String) (datetime_str : String) : List Event :=
  let param_str := gen_param_str abilities datetime_str time
  let out_dir_name := arguments.model_directory ++ param_str ++ "/"
  [.mkdirPStr out_dir_name,
   .mirtTrainEM (mirt_train_params arguments abilities time datetime_str)]

/-- Embedding of generate_roc_curve_from_model: locate the latest
parameter file of the cell's output directory and hand it, the roc
destination and the shared test split to the evaluation
collaborator. -/
def generate_roc_curve_from_model (fs : String → Option (List String))
    (arguments : Arguments) (abilities : Nat) (time : String)
    (datetime_str : String) : List Event × Except LocErr Curve :=
  let roc_dir := arguments.model_directory ++ "rocs/"
  let test_file := arguments.model_directory ++ "test.responses"
  let param_str := gen_param_str abilities datetime_str time
  let out_dir_name := arguments.model_directory ++ param_str ++ "/"
  match get_latest_parameter_file_name fs out_dir_name with
  | .error e => ([], .error e)
  | .ok params =>
    let roc_file := roc_dir ++ param_str ++ ".roc"
    ([.loadAndSimulate params roc_file test_file], .ok (params, roc_file, test_file))

/-! ### The train+evaluate loop of run_with_arguments (lines 215-223) -/

/-- The local variables of run_with_arguments assigned inside the
loop; none models a name that is still unbound (reading it raises
NameError). -/
structure LoopState where
  time : Option String
  roc_curve : Option Curve
  params : Option String
  model : Option String
deriving DecidableEq

def init_locals : LoopState := ⟨none, none, none, none⟩

/-- The inner loop (for time in get_time_arguments(arguments)) for one
ability value: train the cell, then evaluate it, binding the locals
time and roc_curve on every iteration. -/
def innerLoop (fs : String → Option (List String)) (arguments : Arguments)
    (abilities : Nat) (datetime_str : String) :
    List String → LoopState → List Event × Except PyErr LoopState
  | [], st => ([], .ok st)
  | t :: ts, st =>
    let evs1 := generate_model_with_parameters arguments abilities t datetime_str
    match generate_roc_curve_from_model fs arguments abilities t datetime_str with
    | (evs2, .error e) => (evs1 ++ evs2, .error e.toPyErr)
    | (evs2, .ok roc_curve) =>
      match innerLoop fs arguments abilities datetime_str ts
          ⟨some t, some roc_curve, st.params, st.model⟩ with
      | (evs3, r) => (evs1 ++ evs2 ++ evs3, r)

/-- The outer loop (for abilities in arguments.abilities).  After the
inner loop, lines 221-223 rebind params and model from the value the
loop variable time still holds (reading time raises NameError if no
inner iteration ever ran). -/
def outerLoop (fs : String → Option (List String)) (arguments : Arguments)
    (datetime_str : String) :
    List Nat → LoopState → List Event × Except PyErr LoopState
  | [], st => ([], .ok st)
  | a :: rest, st =>
    match innerLoop fs arguments a datetime_str
        (get_time_arguments arguments).time_arguments st with
    | (evs1, .error e) => (evs1, .error e)
    | (evs1, .ok st1) =>
      match st1.time with
      | none => (evs1, .error (.nameError "time"))
      | some t =>
        let params := gen_param_str a datetime_str t
        let out_dir_name := arguments.model_directory ++ params ++ "/"
        match get_latest_parameter_file_name fs out_dir_name with
        | .error e => (evs1, .error e.toPyErr)
        | .ok model =>
          match outerLoop fs arguments datetime_str rest
              ⟨st1.time, st1.roc_curve, some params, some model⟩ with
          | (evs2, r) => (evs1 ++ evs2, r)

/-! ### The staged runner (run_with_arguments) -/

/-- The train branch (lines 201-223): make_necessary_directiories
(mkdir_p is called with the singleton list [roc_dir]),
sep_into_train_and_test, then the train+evaluate loop. -/
def train_stage (fs : String → Option (List String)) (datetime_str : String)
    (arguments : Arguments) : List Event × Except PyErr LoopState :=
  let setup := [Event.mkdirPList [arguments.model_directory ++ "rocs/"],
    Event.sepIntoTrainAndTest arguments]
  match outerLoop fs arguments datetime_str arguments.abilities init_locals with
  | (evs, r) => (setup ++ evs, r)

/-- The visualize branch (lines 224-227): the print statement reads
the local model first, then show_roc reads params and roc_curve. -/
def visualize_stage (arguments : Arguments) (st : LoopState) :
    List Event × Option PyErr :=
  if arguments.visualize then
    match st.model, st.params, st.roc_curve with
    | none, _, _ => ([], some (.nameError "model"))
    | some _, none, _ => ([], some (.nameError "params"))
    | some _, some _, none => ([], some (.nameError "roc_curve"))
    | some model, some params, some roc_curve =>
      ([Event.showRoc params roc_curve, Event.showExercises model], none)
  else ([], none)

/-- The test branch (lines 228-229): adaptive_pretest.main(model)
evaluates the local model before the call. -/
def test_stage (arguments : Arguments) (st : LoopState) :
    List Event × Option PyErr :=
  if arguments.test then
    match st.model with
    | none => ([], some (.nameError "model"))
    | some model => ([Event.adaptivePretest model], none)
  else ([], none)

/-- Embedding of run_with_arguments: datetime_str is the timestamp
datetime.datetime.now().strftime("%Y_%m_%d_%H_%M"), computed once by
the caller of the loop; fs is the filesystem listing.  Returns the
ordered trace of collaborator/provisioner invocations and the
exception that escaped, if any. -/
def run_with_arguments (fs : String → Option (List String))
    (datetime_str : String) (arguments : Arguments) :
    List Event × Option PyErr :=
  let gen_evs := if arguments.generate then [Event.generateResponses arguments] else []
  if arguments.train then
    match train_stage fs datetime_str arguments with
    | (evs, .error e) => (gen_evs ++ evs, some e)
    | (evs, .ok st) =>
      match visualize_stage arguments st with
      | (evs2, some e) => (gen_evs ++ evs ++ evs2, some e)
      | (evs2, none) =>
        match test_stage arguments st with
        | (evs3, r) => (gen_evs ++ evs ++ evs2 ++ evs3, r)
  else
    match visualize_stage arguments init_locals with
    | (evs2, some e) => (gen_evs ++ evs2, some e)
    | (evs2, none) =>
      match test_stage arguments init_locals with
      | (evs3, r) => (gen_evs ++ evs2 ++ evs3, r)

/-! ### Derived notions used by the statements -/

/-- The grid of cells the nested loop ranges over: ability dimensions
outer, time variants inner. -/
def gridCells (abilities : List Nat) (time_arguments : List String) :
    List (Nat × String) :=
  abilities.flatMap fun a => time_arguments.map fun t => (a, t)

/-- The fitting-collaborator invocations of a trace, in order. -/
def trainCalls (evs : List Event) : List (List String) :=
  evs.filterMap fun e => match e with
    | .mirtTrainEM p => some p
    | _ => none

/-- Events that invoke the visualization or adaptive-test collaborator. -/
def isVisTestEvent : Event → Bool
  | .showRoc _ _ => true
  | .showExercises _ => true
  | .adaptivePretest _ => true
  | _ => false

section RunnerSanityChecks

def argsEx : Arguments :=
  ⟨"all.responses", [1, 2], 500, 10, "with_and_without_time", 1, 100,
   "md/", "md/model.json", false, true, false, false⟩

def fsEx : String → Option (List String) := fun _ => some ["p_1"]

example :
    (outerLoop fsEx argsEx "ts" [1] init_locals).2 =
      .ok ⟨some "-z", some ("md/1_time_ts/p_1", "md/rocs/1_time_ts.roc", "md/test.responses"),
           some "1_time_ts", some "md/1_time_ts/p_1"⟩ := by rfl

example :
    run_with_arguments fsEx "ts"
      { argsEx with train := false, generate := true } =
      ([Event.generateResponses { argsEx with train := false, generate := true }], none) := by rfl

end RunnerSanityChecks

/-! ### Order theory of the Python string comparison -/

theorem char_eq_of_toNat_eq {a b : Char} (h : a.toNat = b.toNat) : a = b :=
  Char.ext (UInt32.ext h)

theorem charListLt_irrefl : ∀ a, charListLt a a = false := by
  intro a
  induction a with
  | nil => rfl
  | cons x xs ih => simp [charListLt, ih]

theorem charListLt_asymm : ∀ a b, charListLt a b = true → charListLt b a = false := by
  intro a
  induction a with
  | nil =>
    intro b h
    cases b with
    | nil => simpa [charListLt] using h
    | cons y ys => rfl
  | cons x xs ih =>
    intro b h
    cases b with
    | nil => simpa [charListLt] using h
    | cons y ys =>
      simp only [charListLt] at h ⊢
      by_cases h1 : x.toNat < y.toNat
      · have h2 : ¬ y.toNat < x.toNat := by omega
        simp [h1, h2]
      · by_cases h2 : y.toNat < x.toNat
        · simp [h1, h2] at h
        · simp only [h1, h2, if_false] at h
          simp [h1, h2, ih ys h]

theorem charListLt_trans :
    ∀ a b c, charListLt a b = true → charListLt b c = true → charListLt a c = true := by
  intro a
  induction a with
  | nil =>
    intro b c hab hbc
    cases b with
    | nil => simpa [charListLt] using hab
    | cons y ys =>
      cases c with
      | nil => simpa [charListLt] using hbc
      | cons z zs => rfl
  | cons x xs ih =>
    intro b c hab hbc
    cases b with
    | nil => simpa [charListLt] using hab
    | cons y ys =>
      cases c with
      | nil => simpa [charListLt] using hbc
      | cons z zs =>
        simp only [charListLt] at hab hbc ⊢
        by_cases hxy : x.toNat < y.toNat
        · by_cases hyz : y.toNat < z.toNat
          · have : x.toNat < z.toNat := by omega
            simp [this]
          · by_cases hzy : z.toNat < y.toNat
            · simp [hxy, hyz, hzy] at hbc
            · have : x.toNat < z.toNat := by omega
              simp [this]
        · by_cases hyx : y.toNat < x.toNat
          · simp [hxy, hyx] at hab
          · have hxyeq : x.toNat = y.toNat := by omega
            by_cases hyz : y.toNat < z.toNat
            · have : x.toNat < z.toNat := by omega
              simp [this]
            · by_cases hzy : z.toNat < y.toNat
              · simp [hyz, hzy] at hbc
              · have h1 : ¬ x.toNat < z.toNat := by omega
                have h2 : ¬ z.toNat < x.toNat := by omega
                simp only [hxy, hyx, if_false] at hab
                simp only [hyz, hzy, if_false] at hbc
                simp [h1, h2, ih ys zs hab hbc]

theorem charListLt_eq_false_iff :
    ∀ a b, charListLt a b = false ↔ (a = b ∨ charListLt b a = true) := by
  intro a
  induction a with
  | nil =>
    intro b
    cases b with
    | nil => simp [charListLt]
    | cons y ys => simp [charListLt]
  | cons x xs ih =>
    intro b
    cases b with
    | nil => simp [charListLt]
    | cons y ys =>
      simp only [charListLt]
      by_cases h1 : x.toNat < y.toNat
      · have h2 : ¬ y.toNat < x.toNat := by omega
        have hne : ¬ (x :: xs) = (y :: ys) := by
          intro heq
          cases heq
          omega
        simp [h1, h2, hne]
      · by_cases h2 : y.toNat < x.toNat
        · simp [h1, h2]
        · have hxy : x = y := char_eq_of_toNat_eq (by omega)
          subst hxy
          simp only [h1, if_false]
          rw [ih ys]
          constructor
          · rintro (rfl | h)
            · exact Or.inl rfl
            · exact Or.inr h
          · rintro (heq | h)
            · cases heq
              exact Or.inl rfl
            · exact Or.inr h

theorem charListLe_refl (a : List Char) : charListLe a a = true := by
  simp [charListLe, charListLt_irrefl]

theorem charListLe_total (a b : List Char) :
    charListLe a b = true ∨ charListLe b a = true := by
  by_cases h : charListLt b a = true
  · exact Or.inr (by simp [charListLe, charListLt_asymm _ _ h])
  · exact Or.inl (by simp [charListLe]; exact Bool.not_eq_true _ ▸ (by simpa using h))

theorem charListLe_trans {a b c : List Char} (hab : charListLe a b = true)
    (hbc : charListLe b c = true) : charListLe a c = true := by
  simp only [charListLe, Bool.not_eq_true'] at hab hbc ⊢
  rcases (charListLt_eq_false_iff b a).mp hab with rfl | hlt1
  · exact hbc
  · rcases (charListLt_eq_false_iff c b).mp hbc with rfl | hlt2
    · exact hab
    · apply (charListLt_eq_false_iff c a).mpr
      exact Or.inr (charListLt_trans _ _ _ hlt1 hlt2)

theorem keyLe_refl (f : String) : keyLe f f = true := charListLe_refl _

theorem keyLe_total (f g : String) : keyLe f g = true ∨ keyLe g f = true :=
  charListLe_total _ _

theorem keyLe_trans {f g h : String} (h1 : keyLe f g = true) (h2 : keyLe g h = true) :
    keyLe f h = true := charListLe_trans h1 h2

/-! ### Properties of the stable key sort -/

theorem mem_insertByKey {x f : String} : ∀ {l : List String},
    x ∈ insertByKey f l ↔ x = f ∨ x ∈ l := by
  intro l
  induction l with
  | nil => simp [insertByKey]
  | cons g gs ih =>
    simp only [insertByKey]
    by_cases h : keyLe f g = true
    · simp only [if_pos h, List.mem_cons]
    · simp only [if_neg h, List.mem_cons, ih]
      tauto

theorem mem_sortByKey {x : String} : ∀ {l : List String}, x ∈ sortByKey l ↔ x ∈ l := by
  intro l
  induction l with
  | nil => simp [sortByKey]
  | cons f fs ih =>
    simp [sortByKey, mem_insertByKey, ih]

theorem insertByKey_ne_nil (f : String) (l : List String) : insertByKey f l ≠ [] := by
  cases l with
  | nil => simp [insertByKey]
  | cons g gs =>
    simp only [insertByKey]
    by_cases h : keyLe f g = true <;> simp [h]

theorem sortByKey_eq_nil_iff (l : List String) : sortByKey l = [] ↔ l = [] := by
  cases l with
  | nil => simp [sortByKey]
  | cons f fs =>
    simp only [sortByKey]
    constructor
    · intro h
      exact absurd h (insertByKey_ne_nil _ _)
    · intro h
      cases h

theorem head?_insertByKey (f : String) (l : List String) :
    (insertByKey f l).head? = some f ∨ (insertByKey f l).head? = l.head? := by
  cases l with
  | nil => exact Or.inl rfl
  | cons g gs =>
    simp only [insertByKey]
    by_cases h : keyLe f g = true
    · simp [h]
    · simp [h]

theorem chain'_insertByKey {f : String} : ∀ {l : List String},
    List.Chain' (fun a b => keyLe a b = true) l →
    List.Chain' (fun a b => keyLe a b = true) (insertByKey f l) := by
  intro l
  induction l with
  | nil =>
    intro _
    simp [insertByKey]
  | cons g gs ih =>
    intro h
    simp only [insertByKey]
    by_cases hfg : keyLe f g = true
    · rw [if_pos hfg]
      exact h.cons hfg
    · rw [if_neg hfg]
      have hgf : keyLe g f = true := (keyLe_total f g).resolve_left hfg
      have htail : List.Chain' (fun a b => keyLe a b = true) (insertByKey f gs) :=
        ih h.tail
      refine List.chain'_cons'.mpr ⟨?_, htail⟩
      intro y hy
      rcases head?_insertByKey f gs with hh | hh
      · rw [hh] at hy
        cases hy
        exact hgf
      · rw [hh] at hy
        exact (List.chain'_cons'.mp h).1 y hy

theorem chain'_sortByKey : ∀ (l : List String),
    List.Chain' (fun a b => keyLe a b = true) (sortByKey l) := by
  intro l
  induction l with
  | nil => simp [sortByKey]
  | cons f fs ih => exact chain'_insertByKey ih

theorem chain'_le_getLast : ∀ (l : List String) (m : String),
    List.Chain' (fun a b => keyLe a b = true) l →
    l.getLast? = some m → ∀ x ∈ l, keyLe x m = true := by
  intro l
  induction l with
  | nil => simp
  | cons a t ih =>
    intro m hc hl x hx
    cases t with
    | nil =>
      simp only [List.getLast?_singleton, Option.some.injEq] at hl
      subst hl
      simp only [List.mem_singleton] at hx
      subst hx
      exact keyLe_refl x
    | cons b t' =>
      obtain ⟨hab, hc'⟩ := List.chain'_cons.mp hc
      rw [List.getLast?_cons_cons] at hl
      rcases List.mem_cons.mp hx with rfl | hx'
      · exact keyLe_trans hab (ih m hc' hl b (List.mem_cons_self b t'))
      · exact ih m hc' hl x hx'

theorem getLast_mem_sortByKey {l : List String} {m : String}
    (h : (sortByKey l).getLast? = some m) : m ∈ l := by
  have : m ∈ sortByKey l := List.mem_of_getLast?_eq_some h
  exact mem_sortByKey.mp this

theorem getLast_max_sortByKey {l : List String} {m : String}
    (h : (sortByKey l).getLast? = some m) : ∀ x ∈ l, keyLe x m = true := by
  intro x hx
  exact chain'_le_getLast (sortByKey l) m (chain'_sortByKey l) h x (mem_sortByKey.mpr hx)

/-- The time-included variant is the one whose marker is the empty
string; the "-z" marker excludes the time signal (spec data model). -/
def includesTime (t : String) : Bool := t = ""

/-- C3: for every non-empty directory listing,
get_latest_parameter_file_name sorts the entries by the substring
after the last underscore of each name and returns the full path of an
entry whose suffix is lexicographically greatest; on the listing with
suffixes "03", "9" and "10" it returns the file with suffix "9". -/
theorem getLatest_returns_greatest_suffix :
    (∀ (fs : String → Option (List String)) (path : String) (files : List String),
      fs path = some files → files ≠ [] →
      ∃ f, f ∈ files ∧
        get_latest_parameter_file_name fs path = .ok (path ++ f) ∧
        ∀ g ∈ files, charListLe (suffixKey g) (suffixKey f) = true) ∧
    get_latest_parameter_file_name
      (fun p => if p = "d/" then some ["model_03", "model_9", "model_10"] else none)
      "d/" = .ok "d/model_9" := by
  constructor
  · intro fs path files hfs hne
    have hsne : sortByKey files ≠ [] := by
      intro h
      exact hne ((sortByKey_eq_nil_iff files).mp h)
    obtain ⟨m, hm⟩ : ∃ m, (sortByKey files).getLast? = some m := by
      cases h : (sortByKey files).getLast? with
      | none => exact absurd (List.getLast?_eq_none_iff.mp h) hsne
      | some m => exact ⟨m, rfl⟩
    refine ⟨m, getLast_mem_sortByKey hm, ?_, getLast_max_sortByKey hm⟩
    simp [get_latest_parameter_file_name, hfs, hm]
  · rfl

/-- Witness for C3 at the concrete listing of the spec example. -/
theorem getLatest_returns_greatest_suffix_witness :
    ∃ f, f ∈ ["model_03", "model_9", "model_10"] ∧
      get_latest_parameter_file_name
        (fun p => if p = "d/" then some ["model_03", "model_9", "model_10"] else none)
        "d/" = .ok ("d/" ++ f) ∧
      ∀ g ∈ ["model_03", "model_9", "model_10"],
        charListLe (suffixKey g) (suffixKey f) = true :=
  getLatest_returns_greatest_suffix.1
    (fun p => if p = "d/" then some ["model_03", "model_9", "model_10"] else none)
    "d/" ["model_03", "model_9", "model_10"] (by rfl) (by decide)

/-- C4: get_latest_parameter_file_name fails exactly when the
directory does not exist (os.listdir raises OSError ENOENT, a
file-not-found error) or its listing is empty (the [-1] index raises
IndexError because no artifact is present); on every other input it
returns a path. -/
theorem getLatest_fails_iff_absent :
    ∀ (fs : String → Option (List String)) (path : String),
    (fs path = none →
      get_latest_parameter_file_name fs path = .error .enoent) ∧
    (fs path = some [] →
      get_latest_parameter_file_name fs path = .error .indexError) ∧
    (∀ e, get_latest_parameter_file_name fs path = .error e →
      fs path = none ∨ fs path = some []) := by
  intro fs path
  refine ⟨?_, ?_, ?_⟩
  · intro h
    simp [get_latest_parameter_file_name, h]
  · intro h
    simp [get_latest_parameter_file_name, h, sortByKey]
  · intro e he
    cases hfs : fs path with
    | none => exact Or.inl rfl
    | some files =>
      cases files with
      | nil => exact Or.inr rfl
      | cons f fs' =>
        exfalso
        have hsne : sortByKey (f :: fs') ≠ [] := by
          intro h
          exact absurd ((sortByKey_eq_nil_iff _).mp h) (by simp)
        obtain ⟨m, hm⟩ : ∃ m, (sortByKey (f :: fs')).getLast? = some m := by
          cases h : (sortByKey (f :: fs')).getLast? with
          | none => exact absurd (List.getLast?_eq_none_iff.mp h) hsne
          | some m => exact ⟨m, rfl⟩
        simp only [get_latest_parameter_file_name, hfs, hm] at he
        cases he

/-- Witness for C4 on a missing directory and on an empty one. -/
theorem getLatest_fails_iff_absent_witness :
    get_latest_parameter_file_name (fun _ => none) "d/" = .error .enoent ∧
    get_latest_parameter_file_name (fun _ => some []) "d/" = .error .indexError :=
  ⟨(getLatest_fails_iff_absent (fun _ => none) "d/").1 rfl,
   (getLatest_fails_iff_absent (fun _ => some []) "d/").2.1 rfl⟩

/-- C1 counterexample: for the time-included variant (the empty
marker) gen_param_str produces the label "no_time", not "time" as the
claim states; for the excluded "-z" marker it produces "time". -/
theorem gen_param_str_label_counterexample :
    includesTime "" = true ∧
    gen_param_str 1 "2015_01_01" "" = "1_no_time_2015_01_01" ∧
    gen_param_str 1 "2015_01_01" "" ≠ "1_time_2015_01_01" ∧
    includesTime "-z" = false ∧
    gen_param_str 1 "2015_01_01" "-z" = "1_time_2015_01_01" := by
  refine ⟨rfl, rfl, ?_, rfl, rfl⟩
  decide

/-- C1 amended: the tag is "<ability>_<time_label>_<timestamp>" where
time_label is "no_time" when the cell's time variant includes the time
signal (the empty marker is falsy in Python) and "time" when the
variant excludes it (the non-empty marker is truthy). -/
theorem gen_param_str_labels :
    ∀ (abilities : Nat) (datetime_str : String) (t : String),
    (includesTime t = true →
      gen_param_str abilities datetime_str t =
        Nat.repr abilities ++ "_" ++ "no_time" ++ "_" ++ datetime_str) ∧
    (includesTime t = false →
      gen_param_str abilities datetime_str t =
        Nat.repr abilities ++ "_" ++ "time" ++ "_" ++ datetime_str) := by
  intro abilities datetime_str t
  constructor
  · intro h
    have ht : t = "" := by simpa [includesTime] using h
    simp [gen_param_str, ht]
  · intro h
    have ht : ¬ t = "" := by simpa [includesTime] using h
    simp [gen_param_str, ht]

/-- Witness for C1's amended statement at both variants. -/
theorem gen_param_str_labels_witness :
    gen_param_str 3 "ts" "" = Nat.repr 3 ++ "_" ++ "no_time" ++ "_" ++ "ts" ∧
    gen_param_str 3 "ts" "-z" = Nat.repr 3 ++ "_" ++ "time" ++ "_" ++ "ts" :=
  ⟨(gen_param_str_labels 3 "ts" "").1 rfl,
   (gen_param_str_labels 3 "ts" "-z").2 rfl⟩

/-- C6: get_time_arguments is total and never raises: "with_time"
yields exactly the time-included variant, "without_time" exactly the
excluded one, "with_and_without_time" included then excluded, and any
other string falls back to the included variant after emitting the
warning lines. -/
theorem get_time_arguments_mapping :
    ∀ (arguments : Arguments),
    (arguments.time = "with_time" →
      get_time_arguments arguments = ⟨[""], []⟩) ∧
    (arguments.time = "without_time" →
      get_time_arguments arguments = ⟨["-z"], []⟩) ∧
    (arguments.time = "with_and_without_time" →
      get_time_arguments arguments = ⟨["", "-z"], []⟩) ∧
    (arguments.time ≠ "with_time" → arguments.time ≠ "without_time" →
      arguments.time ≠ "with_and_without_time" →
      get_time_arguments arguments =
        ⟨[""], ["Invalid argument selected for --time",
                "Choosing default behavior - with time"]⟩) := by
  intro arguments
  refine ⟨?_, ?_, ?_, ?_⟩
  · intro h
    simp [get_time_arguments, h]
  · intro h
    simp [get_time_arguments, h]
  · intro h
    simp [get_time_arguments, h]
  · intro h1 h2 h3
    simp [get_time_arguments, h1, h2, h3]

/-- Witness for C6 exercising the invalid-string fallback. -/
theorem get_time_arguments_mapping_witness :
    get_time_arguments { argsEx with time := "bogus" } =
      ⟨[""], ["Invalid argument selected for --time",
              "Choosing default behavior - with time"]⟩ :=
  (get_time_arguments_mapping { argsEx with time := "bogus" }).2.2.2
    (by decide) (by decide) (by decide)

/-- C7 counterexample: for a grid cell whose variant includes the time
signal (the empty marker) no extra marker is appended to
mirt_train_params, while for the time-excluded "-z" variant the marker
is appended; the claim has the condition inverted. -/
theorem mirt_train_params_marker_counterexample :
    includesTime "" = true ∧
    mirt_train_params argsEx 1 "" "ts" =
      ["-a", "1", "-w", "1", "-n", "100",
       "-f", "md/train.responses", "-o", "md/1_no_time_ts/"] ∧
    includesTime "-z" = false ∧
    mirt_train_params argsEx 1 "-z" "ts" =
      ["-a", "1", "-w", "1", "-n", "100",
       "-f", "md/train.responses", "-o", "md/1_time_ts/", "-z"] :=
  ⟨rfl, rfl, rfl, rfl⟩

/-- C7 amended: the extra marker (the variant string itself, "-z" for
every resolved variant) is appended to the parameter list iff the
cell's time variant marks time as excluded; the base list is unchanged
for the time-included variant. -/
theorem mirt_train_params_marker :
    ∀ (arguments : Arguments) (abilities : Nat) (t : String) (datetime_str : String),
    (includesTime t = true →
      mirt_train_params arguments abilities t datetime_str =
        ["-a", Nat.repr abilities, "-w", Nat.repr arguments.workers,
         "-n", Nat.repr arguments.num_epochs,
         "-f", arguments.model_directory ++ "train.responses",
         "-o", arguments.model_directory ++
           gen_param_str abilities datetime_str t ++ "/"]) ∧
    (includesTime t = false →
      mirt_train_params arguments abilities t datetime_str =
        ["-a", Nat.repr abilities, "-w", Nat.repr arguments.workers,
         "-n", Nat.repr arguments.num_epochs,
         "-f", arguments.model_directory ++ "train.responses",
         "-o", arguments.model_directory ++
           gen_param_str abilities datetime_str t ++ "/"] ++ [t]) := by
  intro arguments abilities t datetime_str
  constructor
  · intro h
    have ht : t = "" := by simpa [includesTime] using h
    simp [mirt_train_params, ht]
  · intro h
    have ht : ¬ t = "" := by simpa [includesTime] using h
    simp [mirt_train_params, ht]

/-- Witness for C7's amended statement at both variants. -/
theorem mirt_train_params_marker_witness :
    mirt_train_params argsEx 1 "" "ts" =
      ["-a", Nat.repr 1, "-w", Nat.repr argsEx.workers,
       "-n", Nat.repr argsEx.num_epochs,
       "-f", argsEx.model_directory ++ "train.responses",
       "-o", argsEx.model_directory ++ gen_param_str 1 "ts" "" ++ "/"] ∧
    mirt_train_params argsEx 1 "-z" "ts" =
      ["-a", Nat.repr 1, "-w", Nat.repr argsEx.workers,
       "-n", Nat.repr argsEx.num_epochs,
       "-f", argsEx.model_directory ++ "train.responses",
       "-o", argsEx.model_directory ++ gen_param_str 1 "ts" "-z" ++ "/"] ++ ["-z"] :=
  ⟨(mirt_train_params_marker argsEx 1 "" "ts").1 rfl,
   (mirt_train_params_marker argsEx 1 "-z" "ts").2 rfl⟩

/-! ### Structure of the train+evaluate loop -/

theorem time_arguments_ne_nil (arguments : Arguments) :
    (get_time_arguments arguments).time_arguments ≠ [] := by
  unfold get_time_arguments
  split_ifs <;> simp

theorem trainCalls_append (a b : List Event) :
    trainCalls (a ++ b) = trainCalls a ++ trainCalls b := by
  simp [trainCalls, List.filterMap_append]

theorem trainCalls_gen_model (arguments : Arguments) (a : Nat) (t dt : String) :
    trainCalls (generate_model_with_parameters arguments a t dt) =
      [mirt_train_params arguments a t dt] := by
  simp [generate_model_with_parameters, trainCalls]

theorem trainCalls_roc {fs : String → Option (List String)} {arguments : Arguments}
    {a : Nat} {t dt : String} {evs : List Event} {r : Except LocErr Curve}
    (h : generate_roc_curve_from_model fs arguments a t dt = (evs, r)) :
    trainCalls evs = [] := by
  simp only [generate_roc_curve_from_model] at h
  split at h
  · injection h with h1 h2
    subst h1
    rfl
  · injection h with h1 h2
    subst h1
    rfl

theorem inner_trainCalls {fs : String → Option (List String)} {arguments : Arguments}
    {a : Nat} {dt : String} :
    ∀ (ts : List String) (st : LoopState) (evs : List Event) (st' : LoopState),
    innerLoop fs arguments a dt ts st = (evs, .ok st') →
    trainCalls evs = ts.map (fun t => mirt_train_params arguments a t dt) := by
  intro ts
  induction ts with
  | nil =>
    intro st evs st' h
    simp only [innerLoop] at h
    injection h with h1 h2
    subst h1
    rfl
  | cons t ts ih =>
    intro st evs st' h
    simp only [innerLoop] at h
    cases hroc : generate_roc_curve_from_model fs arguments a t dt with
    | mk evs2 r2 =>
      rw [hroc] at h
      cases r2 with
      | error e =>
        exact absurd (congrArg Prod.snd h) (by simp)
      | ok rc =>
        dsimp only at h
        cases hrec : innerLoop fs arguments a dt ts ⟨some t, some rc, st.params, st.model⟩ with
        | mk evs3 r3 =>
          rw [hrec] at h
          dsimp only at h
          injection h with h1 h2
          subst h1
          subst h2
          rw [trainCalls_append, trainCalls_append, trainCalls_gen_model,
            trainCalls_roc hroc, ih _ _ _ hrec, List.map_cons]
          simp

theorem inner_state {fs : String → Option (List String)} {arguments : Arguments}
    {a : Nat} {dt : String} :
    ∀ (ts : List String) (st : LoopState) (evs : List Event) (st' : LoopState),
    innerLoop fs arguments a dt ts st = (evs, .ok st') → ts ≠ [] →
    ∃ tl rc evs2,
      ts.getLast? = some tl ∧
      generate_roc_curve_from_model fs arguments a tl dt = (evs2, .ok rc) ∧
      st' = ⟨some tl, some rc, st.params, st.model⟩ := by
  intro ts
  induction ts with
  | nil =>
    intro st evs st' _ hne
    exact absurd rfl hne
  | cons t ts ih =>
    intro st evs st' h _
    simp only [innerLoop] at h
    cases hroc : generate_roc_curve_from_model fs arguments a t dt with
    | mk evs2 r2 =>
      rw [hroc] at h
      cases r2 with
      | error e =>
        exact absurd (congrArg Prod.snd h) (by simp)
      | ok rc =>
        dsimp only at h
        cases hrec : innerLoop fs arguments a dt ts ⟨some t, some rc, st.params, st.model⟩ with
        | mk evs3 r3 =>
          rw [hrec] at h
          dsimp only at h
          injection h with h1 h2
          subst h1
          subst h2
          cases ts with
          | nil =>
            simp only [innerLoop] at hrec
            injection hrec with h3 h4
            injection h4 with h5
            exact ⟨t, rc, evs2, rfl, hroc, h5.symm⟩
          | cons u ts' =>
            obtain ⟨tl, rc', evs2', hlast, hroc', hst⟩ :=
              ih _ _ _ hrec (by simp)
            exact ⟨tl, rc', evs2', by rw [List.getLast?_cons_cons]; exact hlast,
              hroc', hst⟩

theorem outer_state {fs : String → Option (List String)} {arguments : Arguments}
    {dt : String} :
    ∀ (abilities : List Nat) (st : LoopState) (evs : List Event) (st' : LoopState),
    outerLoop fs arguments dt abilities st = (evs, .ok st') → abilities ≠ [] →
    ∃ la tl rc p evs2,
      abilities.getLast? = some la ∧
      (get_time_arguments arguments).time_arguments.getLast? = some tl ∧
      generate_roc_curve_from_model fs arguments la tl dt = (evs2, .ok rc) ∧
      get_latest_parameter_file_name fs
        (arguments.model_directory ++ gen_param_str la dt tl ++ "/") = .ok p ∧
      st' = ⟨some tl, some rc, some (gen_param_str la dt tl), some p⟩ := by
  intro abilities
  induction abilities with
  | nil =>
    intro st evs st' _ hne
    exact absurd rfl hne
  | cons a rest ih =>
    intro st evs st' h _
    simp only [outerLoop] at h
    cases hinner : innerLoop fs arguments a dt
        (get_time_arguments arguments).time_arguments st with
    | mk evs1 r1 =>
      rw [hinner] at h
      cases r1 with
      | error e =>
        exact absurd (congrArg Prod.snd h) (by simp)
      | ok st1 =>
        obtain ⟨tl, rc, evs2, hlast, hroc, hst1⟩ :=
          inner_state _ _ _ _ hinner (time_arguments_ne_nil arguments)
        subst hst1
        simp only at h
        cases hglp : get_latest_parameter_file_name fs
            (arguments.model_directory ++ gen_param_str a dt tl ++ "/") with
        | error e =>
          rw [hglp] at h
          exact absurd (congrArg Prod.snd h) (by simp)
        | ok model =>
          rw [hglp] at h
          dsimp only at h
          cases hrec : outerLoop fs arguments dt rest
              ⟨some tl, some rc, some (gen_param_str a dt tl), some model⟩ with
          | mk evs3 r3 =>
            rw [hrec] at h
            dsimp only at h
            injection h with h1 h2
            subst h1
            subst h2
            cases rest with
            | nil =>
              simp only [outerLoop] at hrec
              injection hrec with h3 h4
              injection h4 with h5
              exact ⟨a, tl, rc, model, evs2, rfl, hlast, hroc, hglp, h5.symm⟩
            | cons b rest' =>
              obtain ⟨la, tl', rc', p', evs2', hla, htl', hroc', hglp', hst'⟩ :=
                ih _ _ _ hrec (by simp)
              exact ⟨la, tl', rc', p', evs2',
                by rw [List.getLast?_cons_cons]; exact hla, htl', hroc', hglp', hst'⟩

theorem outer_trainCalls {fs : String → Option (List String)} {arguments : Arguments}
    {dt : String} :
    ∀ (abilities : List Nat) (st : LoopState) (evs : List Event) (st' : LoopState),
    outerLoop fs arguments dt abilities st = (evs, .ok st') →
    trainCalls evs =
      (gridCells abilities (get_time_arguments arguments).time_arguments).map
        (fun c => mirt_train_params arguments c.1 c.2 dt) := by
  intro abilities
  induction abilities with
  | nil =>
    intro st evs st' h
    simp only [outerLoop] at h
    injection h with h1 h2
    subst h1
    rfl
  | cons a rest ih =>
    intro st evs st' h
    simp only [outerLoop] at h
    cases hinner : innerLoop fs arguments a dt
        (get_time_arguments arguments).time_arguments st with
    | mk evs1 r1 =>
      rw [hinner] at h
      cases r1 with
      | error e =>
        exact absurd (congrArg Prod.snd h) (by simp)
      | ok st1 =>
        simp only at h
        cases hst1t : st1.time with
        | none =>
          rw [hst1t] at h
          exact absurd (congrArg Prod.snd h) (by simp)
        | some t =>
          rw [hst1t] at h
          dsimp only at h
          cases hglp : get_latest_parameter_file_name fs
              (arguments.model_directory ++ gen_param_str a dt t ++ "/") with
          | error e =>
            rw [hglp] at h
            exact absurd (congrArg Prod.snd h) (by simp)
          | ok model =>
            rw [hglp] at h
            dsimp only at h
            cases hrec : outerLoop fs arguments dt rest
                ⟨some t, st1.roc_curve, some (gen_param_str a dt t), some model⟩ with
            | mk evs3 r3 =>
              rw [hrec] at h
              dsimp only at h
              injection h with h1 h2
              subst h1
              subst h2
              rw [trainCalls_append, inner_trainCalls _ _ _ _ hinner, ih _ _ _ hrec]
              simp [gridCells, List.map_map, Function.comp]

theorem gridCells_length (abilities : List Nat) (time_arguments : List String) :
    (gridCells abilities time_arguments).length =
      abilities.length * time_arguments.length := by
  induction abilities with
  | nil => simp [gridCells]
  | cons a rest ih =>
    simp only [gridCells, List.flatMap_cons, List.length_append, List.length_map,
      List.length_cons]
    simp only [gridCells] at ih
    rw [ih]
    ring

/-- C5: on a successful pass, the train+evaluate loop invokes the
fitting collaborator once per grid cell, in cross-product order with
ability dimensions outer and time variants inner, and the grid has
exactly m*k cells for m abilities and k time variants. -/
theorem train_loop_processes_grid :
    ∀ (fs : String → Option (List String)) (arguments : Arguments) (dt : String)
      (evs : List Event) (st : LoopState),
    outerLoop fs arguments dt arguments.abilities init_locals = (evs, .ok st) →
    trainCalls evs =
      (gridCells arguments.abilities (get_time_arguments arguments).time_arguments).map
        (fun c => mirt_train_params arguments c.1 c.2 dt) ∧
    (gridCells arguments.abilities (get_time_arguments arguments).time_arguments).length =
      arguments.abilities.length * (get_time_arguments arguments).time_arguments.length :=
  fun _ _ _ _ _ h => ⟨outer_trainCalls _ _ _ _ h, gridCells_length _ _⟩

/-- Witness for C5 at a concrete two-ability, two-variant run. -/
theorem train_loop_processes_grid_witness :
    trainCalls (outerLoop fsEx argsEx "ts" argsEx.abilities init_locals).1 =
      (gridCells argsEx.abilities (get_time_arguments argsEx).time_arguments).map
        (fun c => mirt_train_params argsEx c.1 c.2 "ts") ∧
    (gridCells argsEx.abilities (get_time_arguments argsEx).time_arguments).length =
      argsEx.abilities.length * (get_time_arguments argsEx).time_arguments.length :=
  train_loop_processes_grid fsEx argsEx "ts"
    (outerLoop fsEx argsEx "ts" argsEx.abilities init_locals).1
    ⟨some "-z", some ("md/2_time_ts/p_1", "md/rocs/2_time_ts.roc", "md/test.responses"),
     some "2_time_ts", some "md/2_time_ts/p_1"⟩ (by rfl)

/-- C2: when training runs over a non-empty ability list and the loop
completes, the locals surviving it - and hence the model path, tag, and
curve handed to the visualize and test stages - are exactly those of
the last grid cell (last ability, last time variant); no earlier
cell's results are retained in the loop state. -/
theorem last_cell_results :
    ∀ (fs : String → Option (List String)) (arguments : Arguments) (dt : String)
      (evs : List Event) (st : LoopState),
    arguments.abilities ≠ [] →
    outerLoop fs arguments dt arguments.abilities init_locals = (evs, .ok st) →
    ∃ la tl p,
      arguments.abilities.getLast? = some la ∧
      (get_time_arguments arguments).time_arguments.getLast? = some tl ∧
      get_latest_parameter_file_name fs
        (arguments.model_directory ++ gen_param_str la dt tl ++ "/") = .ok p ∧
      st = ⟨some tl,
            some (p, arguments.model_directory ++ "rocs/" ++ gen_param_str la dt tl ++ ".roc",
                  arguments.model_directory ++ "test.responses"),
            some (gen_param_str la dt tl), some p⟩ ∧
      (arguments.train = true →
        run_with_arguments fs dt arguments =
          ((if arguments.generate then [Event.generateResponses arguments] else []) ++
            ([Event.mkdirPList [arguments.model_directory ++ "rocs/"],
              Event.sepIntoTrainAndTest arguments] ++ evs) ++
            (if arguments.visualize then
              [Event.showRoc (gen_param_str la dt tl)
                 (p, arguments.model_directory ++ "rocs/" ++ gen_param_str la dt tl ++ ".roc",
                  arguments.model_directory ++ "test.responses"),
               Event.showExercises p] else []) ++
            (if arguments.test then [Event.adaptivePretest p] else []), none)) := by
  intro fs arguments dt evs st hne h
  obtain ⟨la, tl, rc, p, evs2, hla, htl, hroc, hglp, hst⟩ :=
    outer_state _ _ _ _ h hne
  have hrc : rc = (p,
      arguments.model_directory ++ "rocs/" ++ gen_param_str la dt tl ++ ".roc",
      arguments.model_directory ++ "test.responses") := by
    simp only [generate_roc_curve_from_model] at hroc
    rw [hglp] at hroc
    dsimp only at hroc
    injection hroc with h1 h2
    injection h2 with h3
    exact h3.symm
  have hst' : st = ⟨some tl,
      some (p, arguments.model_directory ++ "rocs/" ++ gen_param_str la dt tl ++ ".roc",
            arguments.model_directory ++ "test.responses"),
      some (gen_param_str la dt tl), some p⟩ := by
    rw [hst, hrc]
  refine ⟨la, tl, p, hla, htl, hglp, hst', ?_⟩
  intro htrain
  by_cases hv : arguments.visualize = true <;>
    by_cases htst : arguments.test = true <;>
      simp [run_with_arguments, htrain, train_stage, h, hst', visualize_stage,
        test_stage, hv, htst]

/-- Witness for C2 at a concrete two-ability, two-variant run whose
last grid cell is ability 2 with the time-excluded variant. -/
theorem last_cell_results_witness :
    ∃ la tl p,
      argsEx.abilities.getLast? = some la ∧
      (get_time_arguments argsEx).time_arguments.getLast? = some tl ∧
      get_latest_parameter_file_name fsEx
        (argsEx.model_directory ++ gen_param_str la "ts" tl ++ "/") = .ok p ∧
      (⟨some "-z", some ("md/2_time_ts/p_1", "md/rocs/2_time_ts.roc", "md/test.responses"),
        some "2_time_ts", some "md/2_time_ts/p_1"⟩ : LoopState) =
        ⟨some tl,
         some (p, argsEx.model_directory ++ "rocs/" ++ gen_param_str la "ts" tl ++ ".roc",
               argsEx.model_directory ++ "test.responses"),
         some (gen_param_str la "ts" tl), some p⟩ ∧
      (argsEx.train = true →
        run_with_arguments fsEx "ts" argsEx =
          ((if argsEx.generate then [Event.generateResponses argsEx] else []) ++
            ([Event.mkdirPList [argsEx.model_directory ++ "rocs/"],
              Event.sepIntoTrainAndTest argsEx] ++
              (outerLoop fsEx argsEx "ts" argsEx.abilities init_locals).1) ++
            (if argsEx.visualize then
              [Event.showRoc (gen_param_str la "ts" tl)
                 (p, argsEx.model_directory ++ "rocs/" ++ gen_param_str la "ts" tl ++ ".roc",
                  argsEx.model_directory ++ "test.responses"),
               Event.showExercises p] else []) ++
            (if argsEx.test then [Event.adaptivePretest p] else []), none)) :=
  last_cell_results fsEx argsEx "ts"
    (outerLoop fsEx argsEx "ts" argsEx.abilities init_locals).1
    ⟨some "-z", some ("md/2_time_ts/p_1", "md/rocs/2_time_ts.roc", "md/test.responses"),
     some "2_time_ts", some "md/2_time_ts/p_1"⟩ (by decide) (by rfl)

/-! ### Injectivity of the decimal rendering used in tags -/

/-- Value of a decimal digit string (characters shifted by the code of
the zero digit), used to invert Nat.toDigitsCore. -/
def digitsVal : List Char → Nat
  | [] => 0
  | c :: cs => (c.toNat - 48) * 10 ^ cs.length + digitsVal cs

theorem digitChar_toNat_lt10 : ∀ k < 10, (Nat.digitChar k).toNat = k + 48 := by decide

theorem digitChar_ne_underscore : ∀ k < 10, Nat.digitChar k ≠ '_' := by decide

theorem toDigitsCore_val : ∀ (fuel n : Nat) (ds : List Char), n < fuel →
    digitsVal (Nat.toDigitsCore 10 fuel n ds) = n * 10 ^ ds.length + digitsVal ds := by
  intro fuel
  induction fuel with
  | zero =>
    intro n ds h
    exact absurd h (Nat.not_lt_zero n)
  | succ f ih =>
    intro n ds h
    simp only [Nat.toDigitsCore]
    by_cases h0 : n / 10 = 0
    · rw [if_pos h0]
      have hn : n < 10 := (Nat.div_eq_zero_iff (by norm_num)).mp h0
      simp only [digitsVal]
      rw [digitChar_toNat_lt10 _ (Nat.mod_lt _ (by norm_num)),
        Nat.mod_eq_of_lt hn]
      have h48 : n + 48 - 48 = n := by omega
      rw [h48]
    · rw [if_neg h0]
      have hlt : n / 10 < f := by
        have h1 : 0 < n := by
          rcases Nat.eq_zero_or_pos n with rfl | h1
          · simp at h0
          · exact h1
        have := Nat.div_lt_self h1 (by norm_num : 1 < 10)
        omega
      rw [ih (n / 10) (Nat.digitChar (n % 10) :: ds) hlt]
      simp only [digitsVal, List.length_cons]
      rw [digitChar_toNat_lt10 _ (Nat.mod_lt _ (by norm_num))]
      have h48 : n % 10 + 48 - 48 = n % 10 := by omega
      rw [h48, pow_succ]
      have hdm : 10 * (n / 10) + n % 10 = n := Nat.div_add_mod n 10
      calc n / 10 * (10 ^ ds.length * 10) + (n % 10 * 10 ^ ds.length + digitsVal ds)
          = (10 * (n / 10) + n % 10) * 10 ^ ds.length + digitsVal ds := by ring
        _ = n * 10 ^ ds.length + digitsVal ds := by rw [hdm]

theorem repr_inj {m n : Nat} (h : Nat.repr m = Nat.repr n) : m = n := by
  have hd : Nat.toDigits 10 m = Nat.toDigits 10 n := congrArg String.data h
  have h1 := toDigitsCore_val (m + 1) m [] (Nat.lt_succ_self m)
  have h2 := toDigitsCore_val (n + 1) n [] (Nat.lt_succ_self n)
  simp only [digitsVal, List.length_nil, pow_zero, Nat.mul_one, Nat.add_zero] at h1 h2
  have hv : digitsVal (Nat.toDigits 10 m) = digitsVal (Nat.toDigits 10 n) :=
    congrArg digitsVal hd
  rw [Nat.toDigits] at hv
  rw [Nat.toDigits] at hv
  omega

theorem toDigitsCore_no_underscore :
    ∀ (fuel n : Nat) (ds : List Char), (∀ c ∈ ds, c ≠ '_') →
    ∀ c ∈ Nat.toDigitsCore 10 fuel n ds, c ≠ '_' := by
  intro fuel
  induction fuel with
  | zero =>
    intro n ds hds c hc
    simp only [Nat.toDigitsCore] at hc
    exact hds c hc
  | succ f ih =>
    intro n ds hds c hc
    simp only [Nat.toDigitsCore] at hc
    have hdchar : Nat.digitChar (n % 10) ≠ '_' :=
      digitChar_ne_underscore _ (Nat.mod_lt _ (by norm_num))
    by_cases h0 : n / 10 = 0
    · rw [if_pos h0] at hc
      rcases List.mem_cons.mp hc with rfl | hmem
      · exact hdchar
      · exact hds c hmem
    · rw [if_neg h0] at hc
      refine ih (n / 10) (Nat.digitChar (n % 10) :: ds) ?_ c hc
      intro c' hc'
      rcases List.mem_cons.mp hc' with rfl | hm
      · exact hdchar
      · exact hds c' hm

theorem repr_no_underscore (n : Nat) : ∀ c ∈ (Nat.repr n).data, c ≠ '_' := by
  intro c hc
  exact toDigitsCore_no_underscore (n + 1) n [] (by simp) c hc

/-- Splitting at the first underscore is unambiguous when both
prefixes are underscore-free. -/
theorem append_underscore_inj :
    ∀ (xs ys xs' ys' : List Char),
    (∀ c ∈ xs, c ≠ '_') → (∀ c ∈ xs', c ≠ '_') →
    xs ++ '_' :: ys = xs' ++ '_' :: ys' → xs = xs' ∧ ys = ys' := by
  intro xs
  induction xs with
  | nil =>
    intro ys xs' ys' _ hxs' h
    cases xs' with
    | nil =>
      simp only [List.nil_append, List.cons.injEq] at h
      exact ⟨rfl, h.2⟩
    | cons c cs =>
      simp only [List.nil_append, List.cons_append, List.cons.injEq] at h
      exact absurd h.1.symm (hxs' c (by simp))
  | cons x xs ih =>
    intro ys xs' ys' hxs hxs' h
    cases xs' with
    | nil =>
      simp only [List.cons_append, List.nil_append, List.cons.injEq] at h
      exact absurd h.1 (hxs x (by simp))
    | cons c cs =>
      simp only [List.cons_append, List.cons.injEq] at h
      obtain ⟨rfl, h2⟩ := h
      obtain ⟨h3, h4⟩ := ih ys cs ys'
        (fun c' hc' => hxs c' (by simp [hc']))
        (fun c' hc' => hxs' c' (by simp [hc'])) h2
      exact ⟨by rw [h3], h4⟩

/-- Tags of grid cells are injective in (ability, variant) for the
resolved variant markers, under a fixed timestamp. -/
theorem gen_param_str_inj :
    ∀ (a a' : Nat) (ts t t' : String),
    (t = "" ∨ t = "-z") → (t' = "" ∨ t' = "-z") →
    gen_param_str a ts t = gen_param_str a' ts t' → a = a' ∧ t = t' := by
  intro a a' ts t t' ht ht' h
  have key : ∀ (u u' : String), (u = "no_time" ∨ u = "time") →
      (u' = "no_time" ∨ u' = "time") →
      Nat.repr a ++ "_" ++ u ++ "_" ++ ts = Nat.repr a' ++ "_" ++ u' ++ "_" ++ ts →
      a = a' ∧ u = u' := by
    intro u u' hu hu' heq
    have hdata := congrArg String.data heq
    simp only [String.data_append] at hdata
    have hdata' : (Nat.repr a).data ++ '_' :: (u.data ++ '_' :: ts.data) =
        (Nat.repr a').data ++ '_' :: (u'.data ++ '_' :: ts.data) := by
      simpa using hdata
    obtain ⟨h1, h2⟩ := append_underscore_inj _ _ _ _
      (repr_no_underscore a) (repr_no_underscore a') hdata'
    refine ⟨repr_inj (String.ext h1), ?_⟩
    rcases hu with rfl | rfl <;> rcases hu' with rfl | rfl
    · rfl
    · simp at h2
    · simp at h2
    · rfl
  rcases ht with rfl | rfl <;> rcases ht' with rfl | rfl
  · exact ⟨(key "no_time" "no_time" (Or.inl rfl) (Or.inl rfl)
      (by simpa [gen_param_str] using h)).1, rfl⟩
  · exact absurd (key "no_time" "time" (Or.inl rfl) (Or.inr rfl)
      (by simpa [gen_param_str] using h)).2 (by simp)
  · exact absurd (key "time" "no_time" (Or.inr rfl) (Or.inl rfl)
      (by simpa [gen_param_str] using h)).2 (by simp)
  · exact ⟨(key "time" "time" (Or.inr rfl) (Or.inr rfl)
      (by simpa [gen_param_str] using h)).1, rfl⟩

theorem time_arguments_mem (arguments : Arguments) :
    ∀ t ∈ (get_time_arguments arguments).time_arguments, t = "" ∨ t = "-z" := by
  intro t
  unfold get_time_arguments
  split_ifs <;> simp_all

theorem time_arguments_nodup (arguments : Arguments) :
    (get_time_arguments arguments).time_arguments.Nodup := by
  unfold get_time_arguments
  split_ifs <;> simp

theorem gridCells_eq_product (abilities : List Nat) (tas : List String) :
    gridCells abilities tas = abilities ×ˢ tas := rfl

theorem mem_gridCells {abilities : List Nat} {tas : List String} {c : Nat × String}
    (hc : c ∈ gridCells abilities tas) : c.1 ∈ abilities ∧ c.2 ∈ tas := by
  obtain ⟨a, b⟩ := c
  rw [gridCells_eq_product] at hc
  exact List.mem_product.mp hc

/-- C8 counterexample: with a duplicated ability value the grid
produces identical tags, so the m*k tags are not pairwise distinct. -/
theorem tags_not_distinct_with_duplicates :
    ¬ ((gridCells [1, 1]
          (get_time_arguments { argsEx with time := "with_time" }).time_arguments).map
        (fun c => gen_param_str c.1 "2015_01_01" c.2)).Nodup := by
  decide

/-- C8 amended: for an ability list without duplicates (and any
resolved time-variant list, which never contains duplicates), the m*k
tags produced under one fixed run timestamp are pairwise distinct. -/
theorem tags_nodup :
    ∀ (arguments : Arguments) (datetime_str : String),
    arguments.abilities.Nodup →
    ((gridCells arguments.abilities (get_time_arguments arguments).time_arguments).map
      (fun c => gen_param_str c.1 datetime_str c.2)).Nodup := by
  intro arguments datetime_str hab
  apply List.Nodup.map_on
  · intro x hx y hy hxy
    obtain ⟨hx1, hx2⟩ := mem_gridCells hx
    obtain ⟨hy1, hy2⟩ := mem_gridCells hy
    obtain ⟨h1, h2⟩ := gen_param_str_inj x.1 y.1 datetime_str x.2 y.2
      (time_arguments_mem arguments x.2 hx2)
      (time_arguments_mem arguments y.2 hy2) hxy
    obtain ⟨x1, x2⟩ := x
    obtain ⟨y1, y2⟩ := y
    simp only [Prod.mk.injEq]
    exact ⟨h1, h2⟩
  · rw [gridCells_eq_product]
    exact hab.product (time_arguments_nodup arguments)

/-- Witness for C8's amended statement on the duplicate-free ability
list of the spec's end-to-end scenario. -/
theorem tags_nodup_witness :
    ((gridCells argsEx.abilities (get_time_arguments argsEx).time_arguments).map
      (fun c => gen_param_str c.1 "2015_01_01" c.2)).Nodup :=
  tags_nodup argsEx "2015_01_01" (by decide)

/-- C9: when only the generate flag is set, the run consists of the
single synthetic-data-generator invocation: no directory is
provisioned and no training, evaluation, visualization or
adaptive-test collaborator is invoked. -/
theorem generate_only_runs_only_generator :
    ∀ (fs : String → Option (List String)) (datetime_str : String)
      (arguments : Arguments),
    arguments.generate = true → arguments.train = false →
    arguments.visualize = false → arguments.test = false →
    run_with_arguments fs datetime_str arguments =
      ([Event.generateResponses arguments], none) := by
  intro fs datetime_str arguments hgen htrain hvis htest
  simp [run_with_arguments, visualize_stage, test_stage, hgen, htrain, hvis, htest]

/-- Witness for C9 at a concrete configuration. -/
theorem generate_only_runs_only_generator_witness :
    run_with_arguments fsEx "ts"
      { argsEx with generate := true, train := false } =
      ([Event.generateResponses { argsEx with generate := true, train := false }], none) :=
  generate_only_runs_only_generator fsEx "ts"
    { argsEx with generate := true, train := false } rfl rfl rfl rfl

/-- C10: when visualize or test is requested without train, the run
always stops with a NameError on the unbound local "model" before any
visualization or adaptive-test collaborator is invoked; the trace
contains no visualize/test event (so the caller-supplied model file
path option is never consulted by those stages). -/
theorem vis_test_without_train_name_error :
    ∀ (fs : String → Option (List String)) (datetime_str : String)
      (arguments : Arguments),
    arguments.train = false →
    (arguments.visualize = true ∨ arguments.test = true) →
    run_with_arguments fs datetime_str arguments =
      ((if arguments.generate then [Event.generateResponses arguments] else []),
        some (.nameError "model")) ∧
    ∀ e ∈ (run_with_arguments fs datetime_str arguments).1,
      isVisTestEvent e = false := by
  intro fs datetime_str arguments htrain hvt
  have hmain : run_with_arguments fs datetime_str arguments =
      ((if arguments.generate then [Event.generateResponses arguments] else []),
        some (.nameError "model")) := by
    by_cases hv : arguments.visualize = true
    · simp [run_with_arguments, visualize_stage, test_stage, htrain, hv, init_locals]
    · have ht : arguments.test = true := hvt.resolve_left hv
      simp [run_with_arguments, visualize_stage, test_stage, htrain, hv, ht, init_locals]
  refine ⟨hmain, ?_⟩
  intro e he
  rw [hmain] at he
  by_cases hgen : arguments.generate = true
  · simp only [hgen, if_true, List.mem_singleton] at he
    subst he
    rfl
  · simp only [Bool.not_eq_true] at hgen
    simp [hgen] at he

/-- Witness for C10 with visualize requested and train unset. -/
theorem vis_test_without_train_name_error_witness :
    run_with_arguments fsEx "ts" { argsEx with train := false, visualize := true } =
      ((if ({ argsEx with train := false, visualize := true } : Arguments).generate then
          [Event.generateResponses { argsEx with train := false, visualize := true }]
        else []),
        some (.nameError "model")) ∧
    ∀ e ∈ (run_with_arguments fsEx "ts"
        { argsEx with train := false, visualize := true }).1,
      isVisTestEvent e = false :=
  vis_test_without_train_name_error fsEx "ts"
    { argsEx with train := false, visualize := true } rfl (Or.inl rfl)

end Pipeline
